import Mathlib

/-!
Verification of the schema-driven record normalizer in
`src/schema_transformer.py` (class `SchemaTransformer`).

Records and schema values are JSON-like Python objects; we embed them as the
inductive `JValue`.  Python `None` is `JValue.null`; a `dict.get` miss also
yields `JValue.null`, which matches Python, where an absent key and a key
bound to `None` are indistinguishable through `dict.get`.

Python `str.lower`, `str.strip`, `str.split`, `str.replace` and the numeric
parsers are modelled by executable functions on `List Char` below (the core
`String` versions are not kernel-reducible).  `datetime.strptime(s, "%Y-%m-%d")`
and `datetime.fromisoformat` are modelled by explicit parsers for the grammar
those library calls accept (microsecond fractions and exponent/underscore
numeric literal forms are outside the fragment exercised here).
-/

namespace FactoryIngestion

/-- A JSON-like Python value: the data manipulated by the transformer.
`date`/`datetime` are the results of the `format` conversions. -/
inductive JValue where
  | null
  | bool (b : Bool)
  | int (n : Int)
  | float (q : Rat)
  | str (s : String)
  | arr (xs : List JValue)
  | obj (fields : List (String × JValue))
  | date (y m d : Nat)
  | datetime (y m d h mi s : Nat) (offsetMinutes : Option Int)

/-- Python `value is None`. -/
def isNull : JValue → Bool
  | .null => true
  | _ => false

/-- The whitespace characters stripped by Python `str.strip()`. -/
def pyIsSpace (c : Char) : Bool :=
  c == ' ' || c == '\t' || c == '\n' || c == '\r' || c == Char.ofNat 11 || c == Char.ofNat 12

/-- Python `str.strip()`. -/
def pyStripChars (cs : List Char) : List Char :=
  ((cs.dropWhile pyIsSpace).reverse.dropWhile pyIsSpace).reverse

/-- Python `str.strip()` on a `String`. -/
def pyStrip (s : String) : String :=
  String.mk (pyStripChars s.data)

/-- Python `str.lower()` (ASCII range, which covers the repository's usage). -/
def pyLower (s : String) : String :=
  String.mk (s.data.map Char.toLower)

/-- Python `str.split(sep)` for a one-character separator. -/
def splitOnChar (sep : Char) : List Char → List (List Char)
  | [] => [[]]
  | c :: cs =>
    let rest := splitOnChar sep cs
    if c = sep then [] :: rest
    else
      match rest with
      | [] => [[c]]
      | r :: rs => (c :: r) :: rs

/-- Python `str.replace(pat, rep)` for the one-character pattern used at the
single call site (`value.replace('Z', '+00:00')`). -/
def replaceChar (pat : Char) (rep : List Char) : List Char → List Char
  | [] => []
  | c :: cs => if c = pat then rep ++ replaceChar pat rep cs else c :: replaceChar pat rep cs

/-- Decimal digits to the natural number they denote. -/
def digitsToNat (cs : List Char) : Nat :=
  cs.foldl (fun acc c => acc * 10 + (c.toNat - '0'.toNat)) 0

/-- Python `int(s)` on a stripped string: optional sign, then a nonempty
digit run (underscore grouping is outside the fragment used here). -/
def parseIntChars (cs : List Char) : Option Int :=
  match pyStripChars cs with
  | '-' :: ds => if ds ≠ [] ∧ ds.all Char.isDigit then some (-(digitsToNat ds : Int)) else none
  | '+' :: ds => if ds ≠ [] ∧ ds.all Char.isDigit then some (digitsToNat ds : Int) else none
  | ds => if ds ≠ [] ∧ ds.all Char.isDigit then some (digitsToNat ds : Int) else none

/-- Unsigned decimal literal for Python `float(s)`: digits with an optional
point; at least one digit overall (exponent forms are outside the fragment
used here). -/
def parseUnsignedFloat (cs : List Char) : Option Rat :=
  let intPart := cs.takeWhile Char.isDigit
  let rest := cs.dropWhile Char.isDigit
  match rest with
  | [] => if intPart ≠ [] then some (digitsToNat intPart : Rat) else none
  | '.' :: frac =>
    if frac.all Char.isDigit ∧ (intPart ≠ [] ∨ frac ≠ []) then
      some ((digitsToNat intPart : Rat) + (digitsToNat frac : Rat) / ((10 : Rat) ^ frac.length))
    else none
  | _ => none

/-- Python `float(s)`: strip, optional sign, decimal literal. -/
def parseFloatChars (cs : List Char) : Option Rat :=
  match pyStripChars cs with
  | '-' :: ds => (parseUnsignedFloat ds).map (fun q => -q)
  | '+' :: ds => parseUnsignedFloat ds
  | ds => parseUnsignedFloat ds

/-- Truncation toward zero, as Python `int(float)`. -/
def ratTrunc (q : Rat) : Int :=
  if q ≥ 0 then q.floor else -((-q).floor)

/-- Leap-year rule used by `datetime.date`. -/
def isLeapYear (y : Nat) : Bool :=
  (y % 4 == 0 && y % 100 != 0) || y % 400 == 0

/-- Days in a month, as validated by `datetime.date`. -/
def daysInMonth (y m : Nat) : Nat :=
  if m = 2 then (if isLeapYear y then 29 else 28)
  else if m = 4 ∨ m = 6 ∨ m = 9 ∨ m = 11 then 30
  else 31

/-- `datetime.strptime(s, "%Y-%m-%d").date()`: a four-digit year, a one- or
two-digit month and day, validated as a real calendar date. -/
def parseDateChars (cs : List Char) : Option (Nat × Nat × Nat) :=
  match splitOnChar '-' cs with
  | [ys, ms, ds] =>
    if ys.length = 4 ∧ ys.all Char.isDigit ∧
       1 ≤ ms.length ∧ ms.length ≤ 2 ∧ ms.all Char.isDigit ∧
       1 ≤ ds.length ∧ ds.length ≤ 2 ∧ ds.all Char.isDigit then
      let y := digitsToNat ys
      let m := digitsToNat ms
      let d := digitsToNat ds
      if 1 ≤ y ∧ 1 ≤ m ∧ m ≤ 12 ∧ 1 ≤ d ∧ d ≤ daysInMonth y m then some (y, m, d) else none
    else none
  | _ => none

/-- A `HH:MM` or `HH:MM:SS` time, two digits each, as `fromisoformat` accepts. -/
def parseHMS (cs : List Char) : Option (Nat × Nat × Nat) :=
  match cs with
  | [h1, h2, ':', m1, m2] =>
    if [h1, h2, m1, m2].all Char.isDigit then
      let h := digitsToNat [h1, h2]
      let mi := digitsToNat [m1, m2]
      if h ≤ 23 ∧ mi ≤ 59 then some (h, mi, 0) else none
    else none
  | [h1, h2, ':', m1, m2, ':', s1, s2] =>
    if [h1, h2, m1, m2, s1, s2].all Char.isDigit then
      let h := digitsToNat [h1, h2]
      let mi := digitsToNat [m1, m2]
      let s := digitsToNat [s1, s2]
      if h ≤ 23 ∧ mi ≤ 59 ∧ s ≤ 59 then some (h, mi, s) else none
    else none
  | _ => none

/-- `datetime.fromisoformat`: `YYYY-MM-DD`, optionally a separator character
followed by a time, optionally followed by a `±HH:MM` offset. -/
def parseIsoDateTime (cs : List Char) : Option JValue :=
  match cs with
  | y1 :: y2 :: y3 :: y4 :: '-' :: m1 :: m2 :: '-' :: d1 :: d2 :: rest =>
    if [y1, y2, y3, y4, m1, m2, d1, d2].all Char.isDigit then
      let y := digitsToNat [y1, y2, y3, y4]
      let m := digitsToNat [m1, m2]
      let d := digitsToNat [d1, d2]
      if 1 ≤ y ∧ 1 ≤ m ∧ m ≤ 12 ∧ 1 ≤ d ∧ d ≤ daysInMonth y m then
        match rest with
        | [] => some (.datetime y m d 0 0 0 none)
        | _sep :: timeChars =>
          let tPart := timeChars.takeWhile (fun c => !(c == '+') && !(c == '-'))
          let oPart := timeChars.dropWhile (fun c => !(c == '+') && !(c == '-'))
          match parseHMS tPart with
          | none => none
          | some (h, mi, s) =>
            match oPart with
            | [] => some (.datetime y m d h mi s none)
            | sign :: ocs =>
              match parseHMS ocs with
              | some (oh, om, 0) =>
                let off : Int := oh * 60 + om
                some (.datetime y m d h mi s (some (if sign = '-' then -off else off)))
              | _ => none
      else none
    else none
  | _ => none

/-- Zero-padded two-digit decimal rendering. -/
def pad2 (n : Nat) : String :=
  if n < 10 then "0" ++ toString n else toString n

/-- `str(datetime.date(y, m, d))`. -/
def dateStr (y m d : Nat) : String :=
  toString y ++ "-" ++ pad2 m ++ "-" ++ pad2 d

/-- Python `repr` of a float; floats are modelled as rationals, so this is
exact only on integral values (the only ones reachable in this development). -/
def floatRepr (q : Rat) : String :=
  if q.den = 1 then toString q.num ++ ".0" else toString q.num ++ "/" ++ toString q.den

mutual

/-- Python `repr`, used by `str` on container elements. -/
def pyRepr : JValue → String
  | .null => "None"
  | .bool true => "True"
  | .bool false => "False"
  | .int n => toString n
  | .float q => floatRepr q
  | .str s => "'" ++ s ++ "'"
  | .arr xs => "[" ++ String.intercalate ", " (pyReprList xs) ++ "]"
  | .obj fs => "\x7b" ++ String.intercalate ", " (pyReprFields fs) ++ "\x7d"
  | .date y m d => "datetime.date(" ++ toString y ++ ", " ++ toString m ++ ", " ++ toString d ++ ")"
  | .datetime y m d h mi s _ =>
    "datetime.datetime(" ++ toString y ++ ", " ++ toString m ++ ", " ++ toString d ++ ", " ++
      toString h ++ ", " ++ toString mi ++ ", " ++ toString s ++ ")"

def pyReprList : List JValue → List String
  | [] => []
  | x :: xs => pyRepr x :: pyReprList xs

def pyReprFields : List (String × JValue) → List String
  | [] => []
  | (k, v) :: fs => ("'" ++ k ++ "': " ++ pyRepr v) :: pyReprFields fs

end

/-- Python `str(x)` for a non-`None` value. -/
def pyStr : JValue → String
  | .str s => s
  | .date y m d => dateStr y m d
  | .datetime y m d h mi s _ => dateStr y m d ++ " " ++ pad2 h ++ ":" ++ pad2 mi ++ ":" ++ pad2 s
  | v => pyRepr v

/-- Python `float(x)`; `none` is the `ValueError`/`TypeError` case. -/
def pyFloat : JValue → Option Rat
  | .bool b => some (cond b 1 0)
  | .int n => some (n : Rat)
  | .float q => some q
  | .str s => parseFloatChars s.data
  | _ => none

/-- Python `int(x)`; `none` is the `ValueError`/`TypeError` case. -/
def pyInt : JValue → Option Int
  | .bool b => some (cond b 1 0)
  | .int n => some n
  | .float q => some (ratTrunc q)
  | .str s => parseIntChars s.data
  | _ => none

/-- Python `bool(x)` truthiness. -/
def pyTruthy : JValue → Bool
  | .null => false
  | .bool b => b
  | .int n => n != 0
  | .float q => q != 0
  | .str s => s.data != []
  | .arr xs => !xs.isEmpty
  | .obj fs => !fs.isEmpty
  | .date _ _ _ => true
  | .datetime _ _ _ _ _ _ _ => true

/-- Python `list(x)`: a string iterates into its characters, a dict into its
keys; non-iterables raise `TypeError` (`none`). -/
def pyList : JValue → Option (List JValue)
  | .str s => some (s.data.map fun c => .str (String.mk [c]))
  | .arr xs => some xs
  | .obj fs => some (fs.map fun p => JValue.str p.1)
  | _ => none

/-- Insertion into a dict under construction: a repeated key overwrites in
place, a fresh key appends. -/
def dictInsert (d : List (String × JValue)) (k : String) (v : JValue) : List (String × JValue) :=
  if d.any (fun p => p.1 == k) then d.map (fun p => if p.1 == k then (k, v) else p)
  else d ++ [(k, v)]

/-- `dict(pairs)` from an iterable of two-element sequences with string keys
(non-string keys are outside the fragment used here), left to right. -/
def pairsToDictGo (acc : List (String × JValue)) : List JValue → Option (List (String × JValue))
  | [] => some acc
  | .arr [.str k, v] :: rest => pairsToDictGo (dictInsert acc k v) rest
  | _ => none

def pairsToDict (xs : List JValue) : Option (List (String × JValue)) :=
  pairsToDictGo [] xs

/-- Python `dict(x)`; `none` is the `TypeError` case. -/
def pyDict : JValue → Option (List (String × JValue))
  | .obj fs => some fs
  | .arr xs => pairsToDict xs
  | _ => none

/-!
The schema document.  In the source a field spec is one Python dict; each
transformer method consults a fixed set of its keys, which the structures
below record: `PropSpec` holds the keys read for a nested object property
(`source`, `type`, `format`, `default`), `ItemsSpec` the keys read from an
`items` spec (`type`, `format`, `default`, `properties`), and `FieldSpec`
the keys read from a top-level field spec.
-/

structure PropSpec where
  type : Option String := none
  source : Option String := none
  default : Option JValue := none
  format : Option String := none

structure ItemsSpec where
  type : Option String := none
  default : Option JValue := none
  format : Option String := none
  properties : Option (List (String × PropSpec)) := none

structure FieldSpec where
  type : Option String := none
  source : Option String := none
  default : Option JValue := none
  format : Option String := none
  items : Option ItemsSpec := none
  properties : Option (List (String × PropSpec)) := none

/-- The schema keys read by the transformer: `schema.get('properties', {})`
(an insertion-ordered dict, embedded as an association list) and
`schema.get('required', [])`. -/
structure Schema where
  properties : List (String × FieldSpec) := []
  required : List String := []

namespace SchemaTransformer

/-- Python `record.get(key)`: the bound value, or `None` when the key is
absent (or bound to `None`). -/
def dictGet (fields : List (String × JValue)) (k : String) : JValue :=
  match fields.find? (fun p => p.1 == k) with
  | some p => p.2
  | none => .null

/-- Whether a path contains the `.` separator (`'.' in path`). -/
def hasDot (path : String) : Bool :=
  path.data.contains '.'

/-- The descent loop of `_get_nested_value`: repeatedly `value.get(key)`,
returning `None` as soon as the current value is not a dict (a `None` value
also stops the loop with `None`, which coincides with the non-dict case). -/
def descend : JValue → List String → JValue
  | v, [] => v
  | .obj fs, k :: ks => descend (dictGet fs k) ks
  | _, _ :: _ => .null

/-- `SchemaTransformer._get_nested_value`. -/
def getNestedValue (data : List (String × JValue)) (path : String) : JValue :=
  if hasDot path then descend (.obj data) ((splitOnChar '.' path.data).map String.mk)
  else dictGet data path

/-- The basic `TYPE_CONVERTERS` dispatch of `_convert_type` (the `value is
not None` guard inside each converter is vacuous there, since `_convert_type`
returns early on `None`); a converter's `ValueError`/`TypeError` is caught
and replaced by `field_schema.get('default', None)`. -/
def convertBasic (v : JValue) (targetType : String) (dflt : Option JValue) : JValue :=
  if targetType = "string" then .str (pyStr v)
  else if targetType = "number" then
    match pyFloat v with
    | some q => .float q
    | none => dflt.getD .null
  else if targetType = "integer" then
    match pyInt v with
    | some n => .int n
    | none => dflt.getD .null
  else if targetType = "boolean" then .bool (pyTruthy v)
  else if targetType = "array" then
    match pyList v with
    | some xs => .arr xs
    | none => dflt.getD .null
  else if targetType = "object" then
    match pyDict v with
    | some fs => .obj fs
    | none => dflt.getD .null
  else if targetType = "null" then .null
  else v

/-- `SchemaTransformer._convert_format`.  A parse failure is caught inside
the method and the value is returned unchanged. -/
def convertFormat (v : JValue) (formatType : String) : JValue :=
  if formatType = "date" then
    match v with
    | .str s =>
      match parseDateChars s.data with
      | some (y, m, d) => .date y m d
      | none => v
    | v => v
  else if formatType = "date-time" then
    match v with
    | .str s =>
      match parseIsoDateTime (replaceChar 'Z' "+00:00".data s.data) with
      | some dt => dt
      | none => v
    | v => v
  else if formatType = "email" then .str (pyStrip (pyLower (pyStr v)))
  else if formatType = "uri" then .str (pyStrip (pyStr v))
  else if formatType = "uuid" then .str (pyStrip (pyStr v))
  else v

/-- `SchemaTransformer._convert_type` with the `format` and `default` keys of
the field spec passed explicitly (the method reads nothing else from it).
`if format_type:` is Python truthiness, so an empty format string behaves
like an absent one. -/
def convertType (v : JValue) (targetType : String) (fmt : Option String) (dflt : Option JValue) :
    JValue :=
  if isNull v then .null
  else
    match fmt with
    | some f => if f = "" then convertBasic v targetType dflt else convertFormat v f
    | none => convertBasic v targetType dflt

/-- `SchemaTransformer._transform_object`.  Nested property values are looked
up directly with `value.get(source_field)` (no dotted descent) and converted
with `_convert_type`. -/
def transformObject (v : JValue) (props : List (String × PropSpec)) : JValue :=
  match v with
  | .obj fields =>
    .obj (props.map fun p =>
      let pv := dictGet fields (p.2.source.getD p.1)
      if isNull pv then (p.1, p.2.default.getD .null)
      else (p.1, convertType pv (p.2.type.getD "string") p.2.format p.2.default))
  | _ => .obj []

/-- `SchemaTransformer._transform_array`: wrap a non-sequence value as a
one-element list, then map each element through `_transform_object` (when the
items are objects with their own properties) or `_convert_type`. -/
def transformArray (v : JValue) (items : Option ItemsSpec) : JValue :=
  let xs := match v with
    | .arr l => l
    | v => [v]
  let ispec := items.getD {}
  let itemType := ispec.type.getD "string"
  if itemType = "object" ∧ ispec.properties.isSome then
    .arr (xs.map fun x => transformObject x (ispec.properties.getD []))
  else
    .arr (xs.map fun x => convertType x itemType ispec.format ispec.default)

/-- The type dispatch on a resolved, non-`None` field value (the tail of
`_transform_field`). -/
def dispatchValue (v : JValue) (spec : FieldSpec) : JValue :=
  let fieldType := spec.type.getD "string"
  if fieldType = "array" then transformArray v spec.items
  else if fieldType = "object" then transformObject v (spec.properties.getD [])
  else convertType v fieldType spec.format spec.default

/-- `SchemaTransformer._transform_field`.  The custom-transformer registry is
an association list of field name to function.  `Except.error f` embeds the
`ValidationError` raised for the strict missing-required case; it carries the
field name, which the source interpolates into the error message. -/
def transformField (cts : List (String × (JValue → JValue))) (schema : Schema) (strict : Bool)
    (fieldName : String) (spec : FieldSpec) (data : List (String × JValue)) :
    Except String JValue :=
  match cts.find? (fun c => c.1 == fieldName) with
  | some c => .ok (c.2 (getNestedValue data (spec.source.getD fieldName)))
  | none =>
    let value := getNestedValue data (spec.source.getD fieldName)
    if isNull value then
      match spec.default with
      | some d => .ok d
      | none =>
        if fieldName ∈ schema.required ∧ strict then .error fieldName
        else .ok .null
    else .ok (dispatchValue value spec)

/-- The field loop of `_transform_single`: each field's exception is caught
and re-raised when the field is required and the transformer strict, and is
otherwise replaced by the field's default (the overall try/except re-wraps
the escaping `ValidationError`, preserving the field name it carries). -/
def transformFields (cts : List (String × (JValue → JValue))) (schema : Schema) (strict : Bool)
    (data : List (String × JValue)) :
    List (String × FieldSpec) → Except String (List (String × JValue))
  | [] => .ok []
  | p :: rest =>
    match transformField cts schema strict p.1 p.2 data with
    | .ok v =>
      match transformFields cts schema strict data rest with
      | .ok out => .ok ((p.1, v) :: out)
      | .error e => .error e
    | .error _ =>
      if p.1 ∈ schema.required ∧ strict then .error p.1
      else
        match transformFields cts schema strict data rest with
        | .ok out => .ok ((p.1, p.2.default.getD .null) :: out)
        | .error e => .error e

/-- `SchemaTransformer._transform_single`. -/
def transformSingle (cts : List (String × (JValue → JValue))) (schema : Schema) (strict : Bool)
    (data : List (String × JValue)) : Except String (List (String × JValue)) :=
  transformFields cts schema strict data schema.properties

/-- The argument of `SchemaTransformer.transform`: one record, or a list of
records. -/
inductive InputData where
  | one (record : List (String × JValue))
  | many (records : List (List (String × JValue)))

/-- `SchemaTransformer.transform`. -/
def transform (cts : List (String × (JValue → JValue))) (schema : Schema) (strict : Bool) :
    InputData → Except String InputData
  | .one r => (transformSingle cts schema strict r).map .one
  | .many rs => (rs.mapM (transformSingle cts schema strict)).map .many

/-- `SchemaTransformer.validate`: transform, and report whether a
`ValidationError` escaped. -/
def validate (cts : List (String × (JValue → JValue))) (schema : Schema) (strict : Bool)
    (data : InputData) : Bool :=
  match transform cts schema strict data with
  | .ok _ => true
  | .error _ => false

/-- `SchemaTransformer.get_schema_fields`. -/
def getSchemaFields (schema : Schema) : List String :=
  schema.properties.map Prod.fst

/-- `SchemaTransformer.get_required_fields`. -/
def getRequiredFields (schema : Schema) : List String :=
  schema.required

/-- The entries of an object value (used to state lookup properties of
transformed objects). -/
def objFields : JValue → List (String × JValue)
  | .obj fs => fs
  | _ => []

/-- The length of an array value. -/
def arrLength : JValue → Nat
  | .arr xs => xs.length
  | _ => 0

/-- A field raises the strict missing-required `ValidationError` exactly when
no custom transformer is registered for it, its source path resolves to
`None`, it has no default, it is listed in `required`, and the transformer is
strict. -/
def failsRequired (cts : List (String × (JValue → JValue))) (schema : Schema) (strict : Bool)
    (data : List (String × JValue)) (f : String) (spec : FieldSpec) : Prop :=
  cts.find? (fun c => c.1 == f) = none ∧
  isNull (getNestedValue data (spec.source.getD f)) = true ∧
  spec.default = none ∧ f ∈ schema.required ∧ strict = true

lemma dictGet_cons_self (k : String) (v : JValue) (rest : List (String × JValue)) :
    dictGet ((k, v) :: rest) k = v := by
  simp [dictGet, List.find?]

lemma dictGet_cons_ne (k k' : String) (v : JValue) (rest : List (String × JValue))
    (h : k' ≠ k) : dictGet ((k', v) :: rest) k = dictGet rest k := by
  simp only [dictGet, List.find?]
  have : ((k', v).1 == k) = false := by simpa using h
  simp [this]

lemma dictGet_eq_null_of_not_mem (k : String) (fields : List (String × JValue))
    (h : k ∉ fields.map Prod.fst) : dictGet fields k = .null := by
  have hf : fields.find? (fun p => p.1 == k) = none := by
    apply List.find?_eq_none.mpr
    intro p hp
    simp only [beq_iff_eq]
    intro hpk
    exact h (List.mem_map.mpr ⟨p, hp, hpk⟩)
  simp [dictGet, hf]

lemma getNestedValue_no_dot (data : List (String × JValue)) (k : String)
    (h : hasDot k = false) : getNestedValue data k = dictGet data k := by
  simp [getNestedValue, h]

/-- Claim C5: path resolution splits a dotted path into segments and descends
one segment at a time, yielding `None` (never raising) whenever an
intermediate value is not a mapping; a field with source `a.b.c` and type
`integer` applied to `{a:{b:{c:5}}}` yields `5`, and applied to `{a:{}}`
yields `null` with no exception. -/
theorem dotted_path_resolution_descends :
    (∀ (data : List (String × JValue)) (path : String), hasDot path = true →
      getNestedValue data path =
        descend (.obj data) ((splitOnChar '.' path.data).map String.mk)) ∧
    (∀ (fs : List (String × JValue)) (k : String) (ks : List String),
      descend (.obj fs) (k :: ks) = descend (dictGet fs k) ks) ∧
    (∀ (v : JValue) (k : String) (ks : List String), (∀ fs, v ≠ .obj fs) →
      descend v (k :: ks) = .null) ∧
    transformSingle [] { properties := [("x", { type := some "integer", source := some "a.b.c" })] }
      false [("a", .obj [("b", .obj [("c", .int 5)])])] = .ok [("x", .int 5)] ∧
    transformSingle [] { properties := [("x", { type := some "integer", source := some "a.b.c" })] }
      false [("a", .obj [])] = .ok [("x", .null)] := by
  refine ⟨?_, ?_, ?_, rfl, rfl⟩
  · intro data path h
    simp [getNestedValue, h]
  · intro fs k ks
    rfl
  · intro v k ks h
    cases v <;> first
      | rfl
      | exact absurd rfl (h _)

theorem dotted_path_resolution_descends_witness :
    getNestedValue [("a", .obj [("b", .obj [("c", .int 5)])])] "a.b.c" =
      descend (.obj [("a", .obj [("b", .obj [("c", .int 5)])])])
        ((splitOnChar '.' "a.b.c".data).map String.mk) ∧
    descend (.int 7) ["b"] = .null :=
  ⟨dotted_path_resolution_descends.1 _ "a.b.c" (by decide),
   dotted_path_resolution_descends.2.2.1 (.int 7) "b" [] (fun _ h => JValue.noConfusion h)⟩

/-- Claim C2: a field with a registered custom transformer resolves the raw
value via the field's source path with no default substitution, invokes the
custom transformer on that raw value, and binds its return value verbatim
with no subsequent type coercion; a `number` field whose custom transformer
returns a non-numeric string yields that exact string, and a missing value
reaches the transformer as `None` rather than the field's default. -/
theorem custom_transformer_verbatim :
    (∀ (cts : List (String × (JValue → JValue))) (schema : Schema) (strict : Bool)
      (f : String) (spec : FieldSpec) (data : List (String × JValue))
      (c : String × (JValue → JValue)),
      cts.find? (fun p => p.1 == f) = some c →
      transformField cts schema strict f spec data =
        .ok (c.2 (getNestedValue data (spec.source.getD f)))) ∧
    transformSingle [("price", fun _ => .str "not a number")]
      { properties := [("price", { type := some "number" })] } false [("price", .int 3)] =
      .ok [("price", .str "not a number")] ∧
    transformSingle [("price", fun _ => .str "not a number")]
      { properties := [("price", { type := some "number", default := some (.float 0) })] }
      false [] = .ok [("price", .str "not a number")] := by
  refine ⟨?_, rfl, rfl⟩
  intro cts schema strict f spec data c h
  simp [transformField, h]

theorem custom_transformer_verbatim_witness :
    transformField [("price", fun _ => .str "not a number")] {} false "price"
      { type := some "number" } [("price", .int 3)] =
      .ok ((fun _ => JValue.str "not a number")
        (getNestedValue [("price", .int 3)] (Option.getD none "price"))) :=
  custom_transformer_verbatim.1 _ {} false "price" { type := some "number" } _
    ("price", fun _ => .str "not a number") rfl

/-- Claim C9: a field whose source path resolves to an explicitly present
`null` is transformed exactly as if it were absent: `transformField` depends
on the record only through the resolved value, and a present-`null` entry
resolves to the same `None` as a missing one. -/
theorem present_null_indistinguishable_from_absent :
    (∀ (cts : List (String × (JValue → JValue))) (schema : Schema) (strict : Bool)
      (f : String) (spec : FieldSpec) (d1 d2 : List (String × JValue)),
      getNestedValue d1 (spec.source.getD f) = getNestedValue d2 (spec.source.getD f) →
      transformField cts schema strict f spec d1 = transformField cts schema strict f spec d2) ∧
    (∀ (k : String) (rest : List (String × JValue)), hasDot k = false →
      getNestedValue ((k, .null) :: rest) k = .null) ∧
    (∀ (k : String) (rest : List (String × JValue)), hasDot k = false →
      k ∉ rest.map Prod.fst → getNestedValue rest k = .null) := by
  refine ⟨?_, ?_, ?_⟩
  · intro cts schema strict f spec d1 d2 h
    simp only [transformField, h]
  · intro k rest h
    rw [getNestedValue_no_dot _ _ h, dictGet_cons_self]
  · intro k rest h hk
    rw [getNestedValue_no_dot _ _ h, dictGet_eq_null_of_not_mem _ _ hk]

theorem present_null_indistinguishable_from_absent_witness :
    transformField [] { required := ["id"] } true "id" { default := some (.str "d") }
      [("id", .null)] =
      transformField [] { required := ["id"] } true "id" { default := some (.str "d") } [] :=
  present_null_indistinguishable_from_absent.1 [] { required := ["id"] } true "id"
    { default := some (.str "d") } [("id", .null)] [] (by rfl)

lemma transformFields_keys (cts : List (String × (JValue → JValue))) (schema : Schema)
    (strict : Bool) (data : List (String × JValue)) :
    ∀ (props : List (String × FieldSpec)) (out : List (String × JValue)),
      transformFields cts schema strict data props = .ok out →
      out.map Prod.fst = props.map Prod.fst := by
  intro props
  induction props with
  | nil =>
    intro out h
    simp only [transformFields] at h
    cases h
    rfl
  | cons p rest ih =>
    intro out h
    simp only [transformFields] at h
    cases htf : transformField cts schema strict p.1 p.2 data with
    | ok v =>
      rw [htf] at h
      cases hr : transformFields cts schema strict data rest with
      | ok out' =>
        rw [hr] at h
        cases h
        simp [ih out' hr]
      | error e =>
        rw [hr] at h
        cases h
    | error e =>
      rw [htf] at h
      by_cases hc : p.1 ∈ schema.required ∧ strict
      · rw [if_pos hc] at h
        cases h
      · rw [if_neg hc] at h
        cases hr : transformFields cts schema strict data rest with
        | ok out' =>
          rw [hr] at h
          cases h
          simp [ih out' hr]
        | error e2 =>
          rw [hr] at h
          cases h

/-- Claim C7: whenever `transformSingle` succeeds, the output has exactly one
entry per declared schema property, in the schema's property iteration
order (input records are never mutated: the embedding of `_get_nested_value`
is a pure function of the record). -/
theorem output_has_schema_fields_in_order :
    ∀ (cts : List (String × (JValue → JValue))) (schema : Schema) (strict : Bool)
      (data out : List (String × JValue)),
      transformSingle cts schema strict data = .ok out →
      out.map Prod.fst = schema.properties.map Prod.fst :=
  fun cts schema strict data out h => transformFields_keys cts schema strict data _ out h

theorem output_has_schema_fields_in_order_witness :
    ([("a", JValue.null), ("b", JValue.int 2)].map Prod.fst) =
      (({ properties := [("a", {}), ("b", { type := some "integer" })] } : Schema).properties.map
        Prod.fst) :=
  output_has_schema_fields_in_order [] _ false [("b", .int 2)] _ rfl

lemma transformField_ok_of_nonstrict (cts : List (String × (JValue → JValue))) (schema : Schema)
    (f : String) (spec : FieldSpec) (data : List (String × JValue)) :
    ∃ v, transformField cts schema false f spec data = .ok v := by
  unfold transformField
  cases h : cts.find? (fun c => c.1 == f) with
  | some c => exact ⟨_, rfl⟩
  | none =>
    cases hn : isNull (getNestedValue data (spec.source.getD f)) with
    | true =>
      simp only [hn, if_true]
      cases spec.default with
      | some d => exact ⟨d, rfl⟩
      | none =>
        have : ¬(f ∈ schema.required ∧ (false : Bool)) := by simp
        simp [this]
    | false => simp [hn]

lemma transformFields_ok_of_nonstrict (cts : List (String × (JValue → JValue))) (schema : Schema)
    (data : List (String × JValue)) :
    ∀ props : List (String × FieldSpec),
      ∃ out, transformFields cts schema false data props = .ok out := by
  intro props
  induction props with
  | nil => exact ⟨[], rfl⟩
  | cons p rest ih =>
    obtain ⟨out, hout⟩ := ih
    obtain ⟨v, hv⟩ := transformField_ok_of_nonstrict cts schema p.1 p.2 data
    exact ⟨(p.1, v) :: out, by simp [transformFields, hv, hout]⟩

/-- Claim C10: with strict mode off, `validate` returns true on every
well-formed input: every per-field exception is caught and replaced by the
field's default or `null`, so no validation failure can be raised. -/
theorem validate_always_true_when_not_strict :
    ∀ (cts : List (String × (JValue → JValue))) (schema : Schema) (data : InputData),
      validate cts schema false data = true := by
  intro cts schema data
  cases data with
  | one r =>
    obtain ⟨out, hout⟩ := transformFields_ok_of_nonstrict cts schema r schema.properties
    simp only [validate, transform, transformSingle]
    rw [hout]
    rfl
  | many rs =>
    have : ∃ outs, rs.mapM (transformSingle cts schema false) = .ok outs := by
      induction rs with
      | nil => exact ⟨[], rfl⟩
      | cons r rest ih =>
        obtain ⟨outs, houts⟩ := ih
        obtain ⟨out, hout⟩ := transformFields_ok_of_nonstrict cts schema r schema.properties
        refine ⟨out :: outs, ?_⟩
        rw [List.mapM_cons]
        simp only [transformSingle] at hout ⊢
        rw [hout, houts]
        rfl
    obtain ⟨outs, houts⟩ := this
    simp only [validate, transform]
    rw [houts]
    rfl

lemma transformField_error_iff (cts : List (String × (JValue → JValue))) (schema : Schema)
    (strict : Bool) (f : String) (spec : FieldSpec) (data : List (String × JValue)) (e : String) :
    transformField cts schema strict f spec data = .error e ↔
      e = f ∧ failsRequired cts schema strict data f spec := by
  constructor
  · intro h
    unfold transformField at h
    rcases hct : cts.find? (fun c => c.1 == f) with _ | c
    · simp only [hct] at h
      by_cases hn : isNull (getNestedValue data (spec.source.getD f)) = true
      · rw [if_pos hn] at h
        rcases hd : spec.default with _ | d
        · rw [hd] at h
          by_cases hc : f ∈ schema.required ∧ strict = true
          · rw [if_pos hc] at h
            injection h with he
            exact ⟨he.symm, hct, hn, hd, hc.1, hc.2⟩
          · rw [if_neg hc] at h
            cases h
        · rw [hd] at h
          cases h
      · rw [if_neg hn] at h
        cases h
    · simp only [hct] at h
      cases h
  · rintro ⟨he, hfind, hnull, hdflt, hmem, hstrict⟩
    subst he
    unfold transformField
    rw [hfind]
    simp only []
    rw [if_pos hnull, hdflt, if_pos ⟨hmem, hstrict⟩]

lemma transformFields_error_iff (cts : List (String × (JValue → JValue))) (schema : Schema)
    (strict : Bool) (data : List (String × JValue)) :
    ∀ props : List (String × FieldSpec),
      (∃ e, transformFields cts schema strict data props = .error e) ↔
        ∃ p ∈ props, failsRequired cts schema strict data p.1 p.2 := by
  intro props
  induction props with
  | nil =>
    simp [transformFields]
  | cons p rest ih =>
    simp only [transformFields]
    cases htf : transformField cts schema strict p.1 p.2 data with
    | ok v =>
      have hpn : ¬ failsRequired cts schema strict data p.1 p.2 := by
        intro hp
        have := (transformField_error_iff cts schema strict p.1 p.2 data p.1).mpr ⟨rfl, hp⟩
        rw [htf] at this
        cases this
      cases hr : transformFields cts schema strict data rest with
      | ok out =>
        have hre : ¬ ∃ e, transformFields cts schema strict data rest = .error e := by
          rintro ⟨e, he⟩
          rw [hr] at he
          cases he
        constructor
        · rintro ⟨e, he⟩
          cases he
        · rintro ⟨q, hq, hfails⟩
          rcases List.mem_cons.mp hq with hq | hq
          · exact absurd (hq ▸ hfails) hpn
          · exact absurd (ih.mpr ⟨q, hq, hfails⟩) hre
      | error e =>
        have : ∃ q ∈ rest, failsRequired cts schema strict data q.1 q.2 :=
          ih.mp ⟨e, hr⟩
        obtain ⟨q, hq, hfails⟩ := this
        constructor
        · intro _
          exact ⟨q, List.mem_cons_of_mem _ hq, hfails⟩
        · intro _
          exact ⟨e, rfl⟩
    | error e =>
      have hfp : e = p.1 ∧ failsRequired cts schema strict data p.1 p.2 := by
        have := (transformField_error_iff cts schema strict p.1 p.2 data e).mp
        exact (by simpa using this htf)
      have hcond : p.1 ∈ schema.required ∧ (strict : Prop) := by
        refine ⟨hfp.2.2.2.2.1, ?_⟩
        simp [hfp.2.2.2.2.2]
      rw [if_pos hcond]
      constructor
      · intro _
        exact ⟨p, List.mem_cons_self p rest, hfp.2⟩
      · intro _
        exact ⟨p.1, rfl⟩

/-- Claim C1 (amended): `transformSingle` raises a validation failure if and
only if some declared field has no registered custom transformer, its source
path resolves to `None`, it has no default, it is listed in `required`, and
the transformer is strict (`failsRequired`); for a schema with single
required field `id` and no default applied to the empty record, strict mode
raises a failure naming `id` while non-strict mode returns `{id: null}`. -/
theorem strict_required_failure_iff :
    (∀ (cts : List (String × (JValue → JValue))) (schema : Schema) (strict : Bool)
      (data : List (String × JValue)),
      (∃ e, transformSingle cts schema strict data = .error e) ↔
        ∃ p ∈ schema.properties, failsRequired cts schema strict data p.1 p.2) ∧
    transformSingle [] { properties := [("id", {})], required := ["id"] } true [] =
      .error "id" ∧
    transformSingle [] { properties := [("id", {})], required := ["id"] } false [] =
      .ok [("id", .null)] :=
  ⟨fun cts schema strict data => transformFields_error_iff cts schema strict data schema.properties,
   rfl, rfl⟩

theorem strict_required_failure_iff_witness :
    ∃ e, transformSingle [] { properties := [("id", {})], required := ["id"] } true [] =
      .error e :=
  (strict_required_failure_iff.1 [] { properties := [("id", {})], required := ["id"] } true
    []).mpr ⟨("id", {}), by simp, rfl, rfl, rfl, by simp, rfl⟩

/-- Claim C1 counterexample: all four conditions of the claim hold (strict
mode, `id` required, `id` unresolvable in the empty record, no default), yet
with a custom transformer registered for `id` no validation failure is
raised — `transformSingle` succeeds with the transformer's value. -/
theorem strict_required_custom_transformer_no_failure :
    ("id" ∈ ({ properties := [("id", {})], required := ["id"] } : Schema).required) ∧
    isNull (getNestedValue [] (Option.getD (({} : FieldSpec)).source "id")) = true ∧
    (({} : FieldSpec)).default = none ∧
    transformSingle [("id", fun _ => .str "X")]
      { properties := [("id", {})], required := ["id"] } true [] = .ok [("id", .str "X")] :=
  ⟨by simp, rfl, rfl, rfl⟩

/-- Claim C3 counterexample: the basic `array` type coercion (the
`TYPE_CONVERTERS` entry, applied in nested positions such as object
properties declared `array`) converts via Python `list()`, which splits a
string into its characters instead of wrapping it whole: the string `"ab"`
yields the two-element `['a', 'b']`, not the one-element `["ab"]`. -/
theorem array_type_coercion_splits_strings :
    convertBasic (.str "ab") "array" none = .arr [.str "a", .str "b"] ∧
    arrLength (convertBasic (.str "ab") "array" none) = 2 ∧
    transformSingle []
      { properties :=
          [("o", { type := some "object", properties := some [("t", { type := some "array" })] })] }
      false [("o", .obj [("t", .str "ab")])] =
      .ok [("o", .obj [("t", .arr [.str "a", .str "b"])])] :=
  ⟨rfl, rfl, rfl⟩

/-- Claim C3 (amended): array transformation — the path taken by every field
declared `array` — wraps a non-sequence value whole as a one-element
sequence before per-item mapping: transforming `v` equals transforming the
one-element array `[v]`; the nested basic `array` coercion instead applies
Python `list()` and splits strings. -/
theorem transformArray_wraps_non_sequence_whole :
    ∀ (v : JValue) (items : Option ItemsSpec), (∀ xs, v ≠ .arr xs) →
      transformArray v items = transformArray (.arr [v]) items := by
  intro v items h
  cases v <;> first
    | rfl
    | exact absurd rfl (h _)

theorem transformArray_wraps_non_sequence_whole_witness :
    transformArray (.str "ab") none = transformArray (.arr [.str "ab"]) none :=
  transformArray_wraps_non_sequence_whole (.str "ab") none (fun _ h => JValue.noConfusion h)

lemma dictGet_transformObject (fields : List (String × JValue)) :
    ∀ (props : List (String × PropSpec)) (p : String) (ps : PropSpec),
      (p, ps) ∈ props → (props.map Prod.fst).Nodup →
      dictGet (objFields (transformObject (.obj fields) props)) p =
        (if isNull (dictGet fields (ps.source.getD p)) then ps.default.getD .null
         else convertType (dictGet fields (ps.source.getD p)) (ps.type.getD "string")
           ps.format ps.default) := by
  intro props
  induction props with
  | nil =>
    intro p ps hmem _
    exact absurd hmem (List.not_mem_nil _)
  | cons q rest ih =>
    intro p ps hmem hnodup
    simp only [transformObject, objFields, List.map_cons] at ih ⊢
    rcases List.mem_cons.mp hmem with heq | htail
    · have hq : q = (p, ps) := heq.symm
      subst hq
      by_cases hnull : isNull (dictGet fields (ps.source.getD p)) = true
      · rw [if_pos hnull, if_pos hnull, dictGet_cons_self]
      · rw [if_neg hnull, if_neg hnull, dictGet_cons_self]
    · have hmemtail : p ∈ rest.map Prod.fst := List.mem_map.mpr ⟨(p, ps), htail, rfl⟩
      have hne : q.1 ≠ p := by
        intro h
        exact (List.nodup_cons.mp hnodup).1 (h ▸ hmemtail)
      have htl : (rest.map Prod.fst).Nodup := (List.nodup_cons.mp hnodup).2
      by_cases hq : isNull (dictGet fields (q.2.source.getD q.1)) = true
      · rw [if_pos hq, dictGet_cons_ne _ _ _ _ hne]
        exact ih p ps htail htl
      · rw [if_neg hq, dictGet_cons_ne _ _ _ _ hne]
        exact ih p ps htail htl

/-- Claim C4: `transformObject` on a non-mapping value returns an empty
mapping without raising; on a mapping, each declared nested property is
resolved by its own `source` (or the property name) relative to the nested
value, coerced per its declared type, with its own default or `null`
substituted when the value is absent. -/
theorem transformObject_nested_properties :
    (∀ (v : JValue) (props : List (String × PropSpec)), (∀ fs, v ≠ .obj fs) →
      transformObject v props = .obj []) ∧
    (∀ (fields : List (String × JValue)) (props : List (String × PropSpec)) (p : String)
      (ps : PropSpec), (p, ps) ∈ props → (props.map Prod.fst).Nodup →
      dictGet (objFields (transformObject (.obj fields) props)) p =
        (if isNull (dictGet fields (ps.source.getD p)) then ps.default.getD .null
         else convertType (dictGet fields (ps.source.getD p)) (ps.type.getD "string")
           ps.format ps.default)) ∧
    transformObject (.obj [("n", .str "Bob")])
      [("name", { source := some "n" }), ("age", { type := some "integer", default := some (.int 0) })] =
      .obj [("name", .str "Bob"), ("age", .int 0)] ∧
    transformObject (.str "oops") [("name", {})] = .obj [] := by
  refine ⟨?_, ?_, rfl, rfl⟩
  · intro v props h
    cases v <;> first
      | rfl
      | exact absurd rfl (h _)
  · intro fields props p ps hmem hnodup
    exact dictGet_transformObject fields props p ps hmem hnodup

theorem transformObject_nested_properties_witness :
    dictGet (objFields (transformObject (.obj [("n", .str "Bob")])
        [("name", { source := some "n" }), ("age", { type := some "integer", default := some (.int 0) })]))
      "age" =
      (if isNull (dictGet [("n", .str "Bob")]
          (Option.getD (({ type := some "integer", default := some (.int 0) } : PropSpec)).source "age"))
        then Option.getD (({ type := some "integer", default := some (.int 0) } : PropSpec)).default .null
        else convertType (dictGet [("n", .str "Bob")]
            (Option.getD (({ type := some "integer", default := some (.int 0) } : PropSpec)).source "age"))
          (Option.getD (({ type := some "integer", default := some (.int 0) } : PropSpec)).type "string")
          (({ type := some "integer", default := some (.int 0) } : PropSpec)).format
          (({ type := some "integer", default := some (.int 0) } : PropSpec)).default) :=
  transformObject_nested_properties.2.1 [("n", .str "Bob")]
    [("name", { source := some "n" }), ("age", { type := some "integer", default := some (.int 0) })]
    "age" { type := some "integer", default := some (.int 0) } (by simp) (by decide)

/-- Claim C6: when a field spec has a (non-empty) format set, coercion
applies only the format conversion and skips basic type coercion; `date`
parses `YYYY-MM-DD`, `date-time` parses ISO-8601 accepting `Z` as UTC
offset, `email` lower-cases and trims, `uri` and `uuid` trim only; the value
`"  TEST@EXAMPLE.COM  "` under format `email` yields `"test@example.com"`. -/
theorem format_conversion_overrides_type_coercion :
    (∀ (v : JValue) (t f : String) (dflt : Option JValue), isNull v = false → f ≠ "" →
      convertType v t (some f) dflt = convertFormat v f) ∧
    (∀ s : String, convertFormat (.str s) "email" = .str (pyStrip (pyLower s))) ∧
    (∀ s : String, convertFormat (.str s) "uri" = .str (pyStrip s)) ∧
    (∀ s : String, convertFormat (.str s) "uuid" = .str (pyStrip s)) ∧
    convertFormat (.str "  TEST@EXAMPLE.COM  ") "email" = .str "test@example.com" ∧
    convertFormat (.str "2024-05-06") "date" = .date 2024 5 6 ∧
    convertFormat (.str "2024-01-02T03:04:05Z") "date-time" =
      .datetime 2024 1 2 3 4 5 (some 0) := by
  refine ⟨?_, fun s => rfl, fun s => rfl, fun s => rfl, rfl, rfl, rfl⟩
  intro v t f dflt hn hf
  unfold convertType
  rw [hn]
  simp only [Bool.false_eq_true, if_false]
  rw [if_neg hf]

theorem format_conversion_overrides_type_coercion_witness :
    convertType (.str "  TEST@EXAMPLE.COM  ") "string" (some "email") none =
      convertFormat (.str "  TEST@EXAMPLE.COM  ") "email" :=
  format_conversion_overrides_type_coercion.1 (.str "  TEST@EXAMPLE.COM  ") "string" "email"
    none rfl (by decide)

/-- The value `v` already has the runtime type that the declared type `t`
produces, so the basic `TYPE_CONVERTERS` coercion maps it to itself. -/
def convMatches (v : JValue) (t : String) : Prop :=
  (t = "string" ∧ ∃ s, v = .str s) ∨
  (t = "number" ∧ ∃ q, v = .float q) ∨
  (t = "integer" ∧ ∃ n, v = .int n) ∨
  (t = "boolean" ∧ ∃ b, v = .bool b) ∨
  (t = "array" ∧ ∃ xs, v = .arr xs) ∨
  (t = "object" ∧ ∃ fs, v = .obj fs)

lemma convMatches_not_null (v : JValue) (t : String) (h : convMatches v t) :
    isNull v = false := by
  rcases h with ⟨_, s, hv⟩ | ⟨_, q, hv⟩ | ⟨_, n, hv⟩ | ⟨_, b, hv⟩ | ⟨_, xs, hv⟩ | ⟨_, fs, hv⟩ <;>
    subst hv <;> rfl

lemma convertBasic_fixed (v : JValue) (t : String) (dflt : Option JValue)
    (h : convMatches v t) : convertBasic v t dflt = v := by
  rcases h with ⟨ht, s, hv⟩ | ⟨ht, q, hv⟩ | ⟨ht, n, hv⟩ | ⟨ht, b, hv⟩ | ⟨ht, xs, hv⟩ |
    ⟨ht, fs, hv⟩ <;> subst ht <;> subst hv <;> rfl

lemma convertType_fixed (v : JValue) (t : String) (dflt : Option JValue)
    (h : convMatches v t) : convertType v t none dflt = v := by
  unfold convertType
  rw [convMatches_not_null v t h]
  simp only [Bool.false_eq_true, if_false]
  exact convertBasic_fixed v t dflt h

/-- An entry of an already-transformed nested object: same key as its
property spec, identity source, no format, and a value whose runtime type
matches the declared type. -/
def propEntryConforms (g : String × JValue) (p : String × PropSpec) : Prop :=
  g.1 = p.1 ∧ (p.2.source = none ∨ p.2.source = some p.1) ∧ p.2.format = none ∧
  convMatches g.2 (p.2.type.getD "string")

/-- An already-transformed nested object value, entry by entry. -/
def objConforms (gs : List (String × JValue)) (props : List (String × PropSpec)) : Prop :=
  List.Forall₂ propEntryConforms gs props ∧ (props.map Prod.fst).Nodup

lemma transformObject_conforms_aux (full : List (String × JValue)) :
    ∀ (props : List (String × PropSpec)) (gs : List (String × JValue)),
      List.Forall₂ propEntryConforms gs props →
      (props.map Prod.fst).Nodup →
      (∀ p ∈ props, dictGet full p.1 = dictGet gs p.1) →
      transformObject (.obj full) props = .obj gs := by
  intro props gs h
  induction h with
  | nil =>
    intro _ _
    rfl
  | @cons a b l1 l2 hR htail ih =>
    intro hnodup htransfer
    obtain ⟨a1, a2⟩ := a
    obtain ⟨b1, b2⟩ := b
    obtain ⟨hab, hsrc, hfmt, hconv⟩ := hR
    simp only at hab hsrc hfmt hconv
    have hsrcid : b2.source.getD b1 = b1 := by
      rcases hsrc with hs | hs <;> rw [hs] <;> rfl
    have hpv : dictGet full (b2.source.getD b1) = a2 := by
      rw [hsrcid, htransfer (b1, b2) (List.mem_cons_self _ _)]
      subst hab
      exact dictGet_cons_self _ _ _
    have hnn : isNull a2 = false := convMatches_not_null _ _ hconv
    have htailtransfer : ∀ p ∈ l2, dictGet full p.1 = dictGet l1 p.1 := by
      intro p hp
      have h1 := htransfer p (List.mem_cons_of_mem _ hp)
      have hne : a1 ≠ p.1 := by
        intro h
        subst hab
        exact (List.nodup_cons.mp hnodup).1
          (h ▸ List.mem_map.mpr ⟨p, hp, rfl⟩)
      rw [h1, dictGet_cons_ne _ _ _ _ hne]
    have htl := ih (List.nodup_cons.mp hnodup).2 htailtransfer
    simp only [transformObject, List.map_cons] at htl ⊢
    injection htl with hmap
    rw [hmap, hpv, hnn]
    simp only [Bool.false_eq_true, if_false]
    rw [hfmt, convertType_fixed _ _ _ hconv, hab]

lemma transformObject_fixed (gs : List (String × JValue)) (props : List (String × PropSpec))
    (h : objConforms gs props) : transformObject (.obj gs) props = .obj gs :=
  transformObject_conforms_aux gs props gs h.1 h.2 (fun _ _ => rfl)

/-- An already-transformed array element, relative to the array's `items`
spec. -/
def itemEntryConforms (ispec : ItemsSpec) (x : JValue) : Prop :=
  if ispec.type.getD "string" = "object" ∧ ispec.properties.isSome then
    ∃ gs, x = .obj gs ∧ objConforms gs (ispec.properties.getD [])
  else ispec.format = none ∧ convMatches x (ispec.type.getD "string")

lemma transformArray_fixed (items : Option ItemsSpec) (xs : List JValue)
    (h : ∀ x ∈ xs, itemEntryConforms (items.getD {}) x) :
    transformArray (.arr xs) items = .arr xs := by
  unfold transformArray
  simp only []
  by_cases hc : (items.getD {}).type.getD "string" = "object" ∧
      (items.getD {}).properties.isSome
  · rw [if_pos hc]
    congr 1
    induction xs with
    | nil => rfl
    | cons x rest ih =>
      have hx := h x (List.mem_cons_self _ _)
      unfold itemEntryConforms at hx
      rw [if_pos hc] at hx
      obtain ⟨gs, hxe, hconf⟩ := hx
      subst hxe
      simp only [List.map_cons]
      rw [transformObject_fixed gs _ hconf, ih (fun y hy => h y (List.mem_cons_of_mem _ hy))]
  · rw [if_neg hc]
    congr 1
    induction xs with
    | nil => rfl
    | cons x rest ih =>
      have hx := h x (List.mem_cons_self _ _)
      unfold itemEntryConforms at hx
      rw [if_neg hc] at hx
      simp only [List.map_cons]
      have hhead : convertType x ((items.getD {}).type.getD "string") (items.getD {}).format
          (items.getD {}).default = x := by
        rw [hx.1]
        exact convertType_fixed _ _ _ hx.2
      rw [hhead, ih (fun y hy => h y (List.mem_cons_of_mem _ hy))]

/-- An already-transformed field value, relative to its field spec: the
declared type matches the type the transformation produces. -/
def fieldConforms (v : JValue) (spec : FieldSpec) : Prop :=
  if spec.type.getD "string" = "array" then
    ∃ xs, v = .arr xs ∧ ∀ x ∈ xs, itemEntryConforms (spec.items.getD {}) x
  else if spec.type.getD "string" = "object" then
    ∃ gs, v = .obj gs ∧ objConforms gs (spec.properties.getD [])
  else spec.format = none ∧ convMatches v (spec.type.getD "string")

lemma fieldConforms_not_null (v : JValue) (spec : FieldSpec) (h : fieldConforms v spec) :
    isNull v = false := by
  unfold fieldConforms at h
  by_cases h1 : spec.type.getD "string" = "array"
  · rw [if_pos h1] at h
    obtain ⟨xs, hv, _⟩ := h
    subst hv
    rfl
  · rw [if_neg h1] at h
    by_cases h2 : spec.type.getD "string" = "object"
    · rw [if_pos h2] at h
      obtain ⟨gs, hv, _⟩ := h
      subst hv
      rfl
    · rw [if_neg h2] at h
      exact convMatches_not_null _ _ h.2

lemma dispatchValue_fixed (v : JValue) (spec : FieldSpec) (h : fieldConforms v spec) :
    dispatchValue v spec = v := by
  unfold dispatchValue fieldConforms at *
  by_cases h1 : spec.type.getD "string" = "array"
  · rw [if_pos h1] at h ⊢
    obtain ⟨xs, hv, hitems⟩ := h
    subst hv
    exact transformArray_fixed _ _ hitems
  · rw [if_neg h1] at h ⊢
    by_cases h2 : spec.type.getD "string" = "object"
    · rw [if_pos h2] at h ⊢
      obtain ⟨gs, hv, hconf⟩ := h
      subst hv
      exact transformObject_fixed _ _ hconf
    · rw [if_neg h2] at h ⊢
      rw [h.1]
      exact convertType_fixed _ _ _ h.2

lemma transformField_ok_value (schema : Schema) (strict : Bool) (f : String) (spec : FieldSpec)
    (full : List (String × JValue)) (v : JValue)
    (hv : getNestedValue full (spec.source.getD f) = v) (hnn : isNull v = false) :
    transformField [] schema strict f spec full = .ok (dispatchValue v spec) := by
  unfold transformField
  simp only [List.find?, hv, hnn, Bool.false_eq_true, if_false]

/-- An identity schema: every field's source is the field name itself (and
field names are dot-free simple keys, so resolution is a direct lookup). -/
def identitySchema (schema : Schema) : Prop :=
  (∀ p ∈ schema.properties, (p.2.source = none ∨ p.2.source = some p.1) ∧ hasDot p.1 = false) ∧
  (schema.properties.map Prod.fst).Nodup

/-- Entry-by-entry: the output's values already have the declared types of
their field specs. -/
def outputConforms (out : List (String × JValue)) (props : List (String × FieldSpec)) : Prop :=
  List.Forall₂ (fun g p => g.1 = p.1 ∧ fieldConforms g.2 p.2) out props

lemma transformFields_conforms_aux (schema : Schema) (strict : Bool)
    (full : List (String × JValue)) :
    ∀ (props : List (String × FieldSpec)) (out : List (String × JValue)),
      List.Forall₂ (fun g p => g.1 = p.1 ∧ fieldConforms g.2 p.2) out props →
      (∀ p ∈ props, (p.2.source = none ∨ p.2.source = some p.1) ∧ hasDot p.1 = false) →
      (props.map Prod.fst).Nodup →
      (∀ p ∈ props, dictGet full p.1 = dictGet out p.1) →
      transformFields [] schema strict full props = .ok out := by
  intro props out h
  induction h with
  | nil =>
    intro _ _ _
    rfl
  | @cons a b l1 l2 hR htail ih =>
    intro hid hnodup htransfer
    obtain ⟨a1, a2⟩ := a
    obtain ⟨b1, b2⟩ := b
    obtain ⟨hab, hconf⟩ := hR
    simp only at hab hconf
    obtain ⟨hsrc, hdot⟩ := hid (b1, b2) (List.mem_cons_self _ _)
    simp only at hsrc hdot
    have hsrcid : b2.source.getD b1 = b1 := by
      rcases hsrc with hs | hs <;> rw [hs] <;> rfl
    have hval : getNestedValue full (b2.source.getD b1) = a2 := by
      rw [hsrcid, getNestedValue_no_dot _ _ hdot, htransfer (b1, b2) (List.mem_cons_self _ _)]
      subst hab
      exact dictGet_cons_self _ _ _
    have hnn : isNull a2 = false := fieldConforms_not_null _ _ hconf
    have htailtransfer : ∀ p ∈ l2, dictGet full p.1 = dictGet l1 p.1 := by
      intro p hp
      have h1 := htransfer p (List.mem_cons_of_mem _ hp)
      have hne : a1 ≠ p.1 := by
        intro h
        subst hab
        exact (List.nodup_cons.mp hnodup).1 (h ▸ List.mem_map.mpr ⟨p, hp, rfl⟩)
      rw [h1, dictGet_cons_ne _ _ _ _ hne]
    have htl := ih (fun p hp => hid p (List.mem_cons_of_mem _ hp))
      (List.nodup_cons.mp hnodup).2 htailtransfer
    simp only [transformFields]
    rw [transformField_ok_value schema strict b1 b2 full a2 hval hnn,
      dispatchValue_fixed _ _ hconf, htl, hab]

/-- Claim C8: for an identity schema (every field's source is the field name
and the output values already carry their declared types), transforming the
prior output reproduces it identically: `transform (transform r) =
transform r`. -/
theorem transform_idempotent_on_identity_schema :
    ∀ (schema : Schema) (strict : Bool) (data out : List (String × JValue)),
      identitySchema schema →
      transformSingle [] schema strict data = .ok out →
      outputConforms out schema.properties →
      transformSingle [] schema strict out = .ok out := by
  intro schema strict data out hid _ hconf
  exact transformFields_conforms_aux schema strict out schema.properties out hconf hid.1 hid.2
    (fun _ _ => rfl)

theorem transform_idempotent_on_identity_schema_witness :
    transformSingle []
      { properties := [("id", { type := some "integer" }), ("name", { type := some "string" })] }
      false [("id", .int 5), ("name", .str "Bob")] =
      .ok [("id", .int 5), ("name", .str "Bob")] :=
  transform_idempotent_on_identity_schema
    { properties := [("id", { type := some "integer" }), ("name", { type := some "string" })] }
    false [("id", .str "5"), ("name", .str "Bob")] [("id", .int 5), ("name", .str "Bob")]
    (by unfold identitySchema; decide) rfl
    (by
      unfold outputConforms
      refine List.Forall₂.cons ⟨rfl, ?_⟩ (List.Forall₂.cons ⟨rfl, ?_⟩ List.Forall₂.nil)
      · unfold fieldConforms
        exact ⟨rfl, Or.inr (Or.inr (Or.inl ⟨rfl, 5, rfl⟩))⟩
      · unfold fieldConforms
        exact ⟨rfl, Or.inl ⟨rfl, "Bob", rfl⟩⟩)

end SchemaTransformer

end FactoryIngestion
